import Mathlib

/-!
Shallow embedding of `src/api/index.js` (an Xtream-style proxy over a single
M3U playlist) and proofs of the specification claims about it.

The embedding models:
* the line-oriented M3U parser `parseM3U` with its attribute scanner
  `parseAttributes` (regex `(\w[\w-]*)="([^"]*)"` scanned left to right),
* the TTL fetch cache `fetchM3U` (cache state, clock instant and the outcome
  of the injected retrieval capability are passed explicitly; the third
  result component counts invocations of the retrieval capability),
* the access gate `okUserPass` and the allow-list builder `parseAllowUsers`,
* the `/get.php` body shaping (placeholder substitution + header forcing).

JavaScript strings are modelled as Lean `String` (lists of characters);
`trim` is modelled over the ASCII whitespace characters.  Machine-level
details (UTF-16 units, exotic Unicode whitespace) are outside the model.
-/

/-- Whitespace test used by the model of JavaScript `String.prototype.trim`
(ASCII whitespace characters). -/
def isWS (c : Char) : Bool :=
  c == ' ' || c == '\t' || c == '\n' || c == '\r' || c == '\x0b' || c == '\x0c'

/-- Remove leading and trailing whitespace from a character list
(model of JS `trim` on the string's characters). -/
def trimChars (l : List Char) : List Char :=
  ((l.dropWhile isWS).reverse.dropWhile isWS).reverse

/-- Model of JS `String.prototype.trim`. -/
def trimStr (s : String) : String :=
  ⟨trimChars s.data⟩

/-- Character-list version of `startsWith`. -/
def startsChars : List Char → List Char → Bool
  | [], _ => true
  | _ :: _, [] => false
  | a :: as, b :: bs => a == b && startsChars as bs

/-- Model of JS `String.prototype.startsWith`: `strStartsWith s p` is true
iff `p` is a leading segment of `s`. -/
def strStartsWith (s pre : String) : Bool :=
  startsChars pre.data s.data

/-- Model of JS `substring(n)` (the call sites only drop ASCII characters). -/
def strDrop (s : String) (n : Nat) : String :=
  ⟨s.data.drop n⟩

/-- Worker for `splitLines`: split on `\r\n` or `\n` (the JS regex `/\r?\n/`);
a lone `\r` does not split. -/
def splitLinesAux : List Char → List Char → List String
  | [], acc => [⟨acc.reverse⟩]
  | '\r' :: '\n' :: rest, acc => (⟨acc.reverse⟩ : String) :: splitLinesAux rest []
  | '\n' :: rest, acc => (⟨acc.reverse⟩ : String) :: splitLinesAux rest []
  | c :: rest, acc => splitLinesAux rest (c :: acc)

/-- Model of `text.split(/\r?\n/)`. -/
def splitLines (text : String) : List String :=
  splitLinesAux text.data []

/-- Worker for `splitChar`. -/
def splitCharAux (sep : Char) : List Char → List Char → List String
  | [], acc => [⟨acc.reverse⟩]
  | c :: rest, acc =>
    if c == sep then (⟨acc.reverse⟩ : String) :: splitCharAux sep rest []
    else splitCharAux sep rest (c :: acc)

/-- Model of JS `String.prototype.split` with a single-character separator. -/
def splitChar (s : String) (sep : Char) : List String :=
  splitCharAux sep s.data []

/-- Split a character list at the first comma, as `indexOf(",")` plus the two
`substring` calls do in `parseM3U`; `none` when no comma occurs. -/
def splitFirstComma (l : List Char) : Option (List Char × List Char) :=
  match l.dropWhile (fun c => c != ',') with
  | ',' :: rest => some (l.takeWhile (fun c => c != ','), rest)
  | _ => none

/-- JS regex `\w`: ASCII word character. -/
def isWordChar (c : Char) : Bool :=
  c.isAlpha || c.isDigit || c == '_'

/-- JS regex `[\w-]`: word character or hyphen (attribute-key body). -/
def isKeyChar (c : Char) : Bool :=
  isWordChar c || c == '-'

/-- Fuelled scanner for the global regex `(\w[\w-]*)="([^"]*)"` of
`parseAttributes`: at each position try to match a key (one word character
then a maximal run of key characters), then `="`, then a value running to the
next double quote; on success resume after the closing quote, on failure
advance one character.  The fuel is the length of the scanned list, which
bounds the recursion (every step consumes at least one character). -/
def scanAttrsGo : Nat → List Char → List (String × String)
  | _, [] => []
  | 0, _ => []
  | fuel + 1, c :: rest =>
    if isWordChar c then
      match rest.dropWhile isKeyChar with
      | '=' :: '"' :: vrest =>
        match vrest.dropWhile (fun ch => ch != '"') with
        | '"' :: tail =>
          ((⟨c :: rest.takeWhile isKeyChar⟩ : String),
            (⟨vrest.takeWhile (fun ch => ch != '"')⟩ : String)) :: scanAttrsGo fuel tail
        | _ => scanAttrsGo fuel rest
      | _ => scanAttrsGo fuel rest
    else scanAttrsGo fuel rest

/-- Model of `parseAttributes`: the ordered list of `key="value"` matches of
the attribute regex over the metadata segment. -/
def scanAttrs (s : String) : List (String × String) :=
  scanAttrsGo s.data.length s.data

/-- Model of JS `a || b` on strings where `a` may be `undefined` or empty
(both falsy, represented here by `""`). -/
def jsOr (a b : String) : String :=
  if a = "" then b else a

/-- Model of `a || null` for an attribute value: empty (or absent) becomes
`null`. -/
def jsOrNull (a : String) : Option String :=
  if a = "" then none else some a

/-- Read an attribute from the scanned pair list the way the JS object built
by `parseAttributes` does: the last occurrence of the key wins. -/
def attrLookup (attrs : List (String × String)) (k : String) : Option String :=
  List.lookup k attrs.reverse

/-- Attribute value with JS `undefined` collapsed to the (equally falsy)
empty string. -/
def getAttrD (attrs : List (String × String)) (k : String) : String :=
  (attrLookup attrs k).getD ""

/-- Name resolution of `parseM3U`:
`attrs["tvg-name"] || title || attrs["tvg-id"] || "Unnamed"`. -/
def resolveName (attrs : List (String × String)) (title : String) : String :=
  jsOr (getAttrD attrs "tvg-name") (jsOr title (jsOr (getAttrD attrs "tvg-id") "Unnamed"))

/-- Category resolution of `parseM3U`: `attrs["group-title"] || "Other"`. -/
def resolveCategory (attrs : List (String × String)) : String :=
  jsOr (getAttrD attrs "group-title") "Other"

/-- The `current` object of `parseM3U`'s loop. -/
structure Pending where
  name : String
  title : String
  attrs : List (String × String)
  url : Option String
deriving DecidableEq

/-- Build the pending entry from a (trimmed) `#EXTINF:` line: drop the tag,
split at the first comma into metadata and title (both trimmed), scan the
attributes from the metadata part. -/
def parseExtinf (line : String) : Pending :=
  let after := strDrop line 8
  match splitFirstComma after.data with
  | some pr =>
    let title := trimStr ⟨pr.2⟩
    let attrs := scanAttrs (trimStr ⟨pr.1⟩)
    { name := resolveName attrs title, title := title, attrs := attrs, url := none }
  | none =>
    let attrs := scanAttrs (trimStr after)
    { name := resolveName attrs "", title := "", attrs := attrs, url := none }

/-- One iteration of `parseM3U`'s loop on a raw line: returns the entries
emitted by this line (zero or one) and the new pending slot. -/
def stepLine (rawLine : String) (cur : Option Pending) : List Pending × Option Pending :=
  let line := trimStr rawLine
  if line = "" then ([], cur)
  else if strStartsWith line "#EXTINF:" then ([], some (parseExtinf line))
  else
    match cur with
    | some p =>
      if strStartsWith line "#" then ([], cur)
      else ([{ p with url := some line }], none)
    | none => ([], none)

/-- The whole line loop of `parseM3U`. -/
def parseLoop : List String → Option Pending → List Pending
  | [], _ => []
  | l :: rest, cur => (stepLine l cur).1 ++ parseLoop rest (stepLine l cur).2

/-- Normalized catalog entry: the object shape returned by `parseM3U`. -/
structure Channel where
  id : String
  stream_id : Nat
  name : String
  title : String
  tvg_id : Option String
  tvg_logo : Option String
  group_title : String
  direct_source : Option String
deriving DecidableEq

/-- The final mapping step of `parseM3U` on one collected entry
(`idx` is the 0-based position). -/
def mkChannel (idx : Nat) (c : Pending) : Channel :=
  { id := toString (idx + 1)
    stream_id := idx + 1
    name := c.name
    title := c.title
    tvg_id := jsOrNull (getAttrD c.attrs "tvg-id")
    tvg_logo := jsOrNull (getAttrD c.attrs "tvg-logo")
    group_title := resolveCategory c.attrs
    direct_source := c.url }

/-- `channels.map((c, idx) => ...)` with explicit running index. -/
def assignIds : Nat → List Pending → List Channel
  | _, [] => []
  | idx, c :: rest => mkChannel idx c :: assignIds (idx + 1) rest

/-- Model of `parseM3U`: split into lines, run the loop with an empty pending
slot, then assign ids in emission order. -/
def parseM3U (text : String) : List Channel :=
  assignIds 0 (parseLoop (splitLines text) none)

/-- Model of `okUserPass`: the allow list is the `ALLOW_USERS` map
(`none` for the password models a JS `undefined` query parameter, which
`pass || ""` collapses to the empty string). -/
def okUserPass (allow : List (String × String)) (user : String) (pass : Option String) : Bool :=
  if allow.isEmpty then true
  else
    match List.lookup user allow with
    | none => false
    | some allowedPass => allowedPass == pass.getD ""

/-- Model of `Map.prototype.set`: overwrite in place when the key exists,
otherwise append. -/
def mapSet (m : List (String × String)) (k v : String) : List (String × String) :=
  if m.any (fun e => e.1 == k) then
    m.map (fun e => if e.1 == k then (k, v) else e)
  else m ++ [(k, v)]

/-- Model of `parseAllowUsers`: split the configuration string on commas,
trim, drop empties, split each pair on `:` and store
`username -> password-or-empty` for a non-empty username. -/
def parseAllowUsers (raw : String) : List (String × String) :=
  let pairs := ((splitChar raw ',').map trimStr).filter (fun s => s != "")
  pairs.foldl
    (fun m pair =>
      let parts := splitChar pair ':'
      let u := parts.headD ""
      let p := parts.getD 1 ""
      if u != "" then mapSet m u p else m)
    []

/-- The module-level `cache` object. -/
structure Cache where
  m3uText : Option String
  parsed : Option (List Channel)
  fetchedAt : Int
deriving DecidableEq

/-- Outcome of one call to the injected retrieval capability: a transport
error (the awaited request rejects) or an HTTP response with status code and
body text. -/
inductive FetchOutcome where
  | transportError
  | response (statusCode : Nat) (bodyText : String)
deriving DecidableEq

/-- A retrieval outcome the code treats as failure: transport error or
status at least 400. -/
def isFailureOut : FetchOutcome → Bool
  | .transportError => true
  | .response status _ => decide (400 ≤ status)

/-- The freshness guard `cache.m3uText && now - cache.fetchedAt < CACHE_TTL_MS`:
JS truthiness makes a cached empty string count as absent. -/
def cacheFresh (c : Cache) (now ttl : Int) : Bool :=
  (match c.m3uText with
    | some t => !(t == "")
    | none => false)
  && decide (now - c.fetchedAt < ttl)

/-- Model of `fetchM3U`: given the cache state, the clock instant, the TTL
and the outcome the retrieval capability would produce, return the call's
result (`Except` models a thrown error), the new cache state and the number
of invocations of the retrieval capability. -/
def fetchM3U (c : Cache) (now ttl : Int) (out : FetchOutcome) :
    Except String String × Cache × Nat :=
  if cacheFresh c now ttl then
    (Except.ok (c.m3uText.getD ""), c, 0)
  else
    match out with
    | .transportError => (Except.error "fetch failed", c, 1)
    | .response status body =>
      if 400 ≤ status then
        (Except.error ("Upstream M3U fetch failed: " ++ toString status), c, 1)
      else
        (Except.ok body,
          { m3uText := some body, parsed := some (parseM3U body), fetchedAt := now }, 1)

/-- Fuelled worker for `replaceAll`: at each position, if the (non-empty)
pattern matches, emit the replacement and resume after the matched segment;
otherwise keep one character.  Fuel is the input length. -/
def replaceAllGo (pat rep : List Char) : Nat → List Char → List Char
  | _, [] => []
  | 0, l => l
  | fuel + 1, c :: rest =>
    if startsChars pat (c :: rest) && !pat.isEmpty then
      rep ++ replaceAllGo pat rep fuel (rest.drop (pat.length - 1))
    else
      c :: replaceAllGo pat rep fuel rest

/-- Model of JS `String.prototype.replaceAll` with a literal (non-empty at
every call site) pattern. -/
def replaceAll (s pat rep : String) : String :=
  ⟨replaceAllGo pat.data rep.data s.data.length s.data⟩

/-- The personalization step of `/get.php`: substitute the two literal
placeholder tokens by the supplied credentials. -/
def personalize (m3u username password : String) : String :=
  replaceAll (replaceAll m3u "\x7b\x7busername\x7d\x7d" username) "\x7b\x7bpassword\x7d\x7d" password

/-- The `/get.php` success body: personalize, then force the `#EXTM3U`
header when missing. -/
def getPhpBody (m3u username password : String) : String :=
  let out := personalize m3u username password
  if strStartsWith out "#EXTM3U" then out else "#EXTM3U\n" ++ out

/-! ## Helper lemmas about the string primitives -/

theorem dropWhile_head_false {α : Type} (p : α → Bool) (l : List α) (c : α)
    (h : (l.dropWhile p).head? = some c) : p c = false := by
  induction l with
  | nil => simp [List.dropWhile] at h
  | cons a as ih =>
    by_cases hpa : p a = true
    · rw [List.dropWhile_cons, if_pos hpa] at h
      exact ih h
    · rw [List.dropWhile_cons, if_neg hpa] at h
      simp only [List.head?_cons, Option.some.injEq] at h
      subst h
      exact Bool.eq_false_iff.mpr hpa

theorem dropWhile_eq_self_of_head {α : Type} (p : α → Bool) (l : List α)
    (h : ∀ c, l.head? = some c → p c = false) : l.dropWhile p = l := by
  cases l with
  | nil => rfl
  | cons a as =>
    rw [List.dropWhile_cons, if_neg]
    simp [h a rfl]

theorem dropWhile_dropWhile {α : Type} (p : α → Bool) (l : List α) :
    (l.dropWhile p).dropWhile p = l.dropWhile p :=
  dropWhile_eq_self_of_head p _ (dropWhile_head_false p l)

theorem dropWhile_getLast {α : Type} (p : α → Bool) (l : List α)
    (h : l.dropWhile p ≠ []) : (l.dropWhile p).getLast? = l.getLast? := by
  induction l with
  | nil => simp [List.dropWhile] at h
  | cons a as ih =>
    by_cases hpa : p a = true
    · rw [List.dropWhile_cons, if_pos hpa] at h ⊢
      rw [ih h]
      cases has : as with
      | nil => rw [has] at h; simp [List.dropWhile] at h
      | cons b bs => simp [List.getLast?_cons_cons]
    · rw [List.dropWhile_cons, if_neg hpa]

theorem trimChars_idem (l : List Char) : trimChars (trimChars l) = trimChars l := by
  unfold trimChars
  by_cases hv : (l.dropWhile isWS).reverse.dropWhile isWS = []
  · rw [hv]
    rfl
  · have hhead : ∀ c,
        ((l.dropWhile isWS).reverse.dropWhile isWS).reverse.head? = some c → isWS c = false := by
      intro c hc
      rw [List.head?_reverse] at hc
      rw [dropWhile_getLast isWS _ hv, List.getLast?_reverse] at hc
      exact dropWhile_head_false isWS _ c hc
    rw [dropWhile_eq_self_of_head isWS _ hhead, List.reverse_reverse,
      dropWhile_dropWhile]

theorem trimStr_idem (s : String) : trimStr (trimStr s) = trimStr s :=
  congrArg String.mk (trimChars_idem s.data)

theorem strStartsWith_header (s : String) :
    strStartsWith ("#EXTM3U\n" ++ s) "#EXTM3U" = true := by
  have hd : ("#EXTM3U\n" ++ s).data =
      '#' :: 'E' :: 'X' :: 'T' :: 'M' :: '3' :: 'U' :: '\n' :: s.data := rfl
  simp [strStartsWith, hd, startsChars]

/-! ## Helper lemmas about the parser loop -/

theorem parseExtinf_title_trimmed (line : String) :
    trimStr (parseExtinf line).title = (parseExtinf line).title := by
  cases h : splitFirstComma (strDrop line 8).data with
  | some pr =>
    simp only [parseExtinf, h]
    exact trimStr_idem _
  | none =>
    simp only [parseExtinf, h]
    decide

/-- Every pending entry installed by a line step has a trimmed title. -/
theorem stepLine_snd_title (l : String) (cur : Option Pending)
    (hcur : ∀ q, cur = some q → trimStr q.title = q.title) :
    ∀ q, (stepLine l cur).2 = some q → trimStr q.title = q.title := by
  intro q hq
  unfold stepLine at hq
  by_cases h1 : trimStr l = ""
  · rw [if_pos h1] at hq
    exact hcur q hq
  · rw [if_neg h1] at hq
    by_cases h2 : strStartsWith (trimStr l) "#EXTINF:" = true
    · simp only [h2, if_true] at hq
      simp only [Option.some.injEq] at hq
      subst hq
      exact parseExtinf_title_trimmed _
    · simp only [h2] at hq
      cases hc : cur with
      | some p =>
        rw [hc] at hq
        by_cases h3 : strStartsWith (trimStr l) "#" = true
        · simp only [h3, if_true] at hq
          exact hcur q (hc.trans hq)
        · simp only [h3] at hq
          simp at hq
      | none =>
        rw [hc] at hq
        simp at hq

/-- Every entry emitted by a line step carries the trimmed line as its URL,
that trimmed line is non-blank, and the entry's title is trimmed. -/
theorem stepLine_fst_mem (l : String) (cur : Option Pending) (p : Pending)
    (hcur : ∀ q, cur = some q → trimStr q.title = q.title)
    (hp : p ∈ (stepLine l cur).1) :
    p.url = some (trimStr l) ∧ trimStr l ≠ "" ∧ trimStr p.title = p.title := by
  unfold stepLine at hp
  by_cases h1 : trimStr l = ""
  · rw [if_pos h1] at hp
    simp at hp
  · rw [if_neg h1] at hp
    by_cases h2 : strStartsWith (trimStr l) "#EXTINF:" = true
    · simp only [h2, if_true] at hp
      simp at hp
    · simp only [h2] at hp
      cases hc : cur with
      | some q =>
        rw [hc] at hp
        by_cases h3 : strStartsWith (trimStr l) "#" = true
        · simp only [h3, if_true] at hp
          simp at hp
        · simp only [h3] at hp
          simp only [Bool.false_eq_true, if_false, List.mem_singleton] at hp
          subst hp
          exact ⟨rfl, h1, hcur q hc⟩
      | none =>
        rw [hc] at hp
        simp at hp

/-- Every entry produced by the loop has as URL the trim of some input line,
that trim is non-blank, and the entry's title is trimmed; the hypothesis on
`cur` is the title invariant of the pending slot. -/
theorem parseLoop_mem (lines : List String) :
    ∀ (cur : Option Pending) (p : Pending),
      (∀ q, cur = some q → trimStr q.title = q.title) →
      p ∈ parseLoop lines cur →
      (∃ l, l ∈ lines ∧ p.url = some (trimStr l) ∧ trimStr l ≠ "") ∧
        trimStr p.title = p.title := by
  induction lines with
  | nil =>
    intro cur p _ hp
    simp [parseLoop] at hp
  | cons l rest ih =>
    intro cur p hcur hp
    rw [parseLoop] at hp
    rcases List.mem_append.mp hp with h1 | h2
    · have := stepLine_fst_mem l cur p hcur h1
      exact ⟨⟨l, List.mem_cons_self l rest, this.1, this.2.1⟩, this.2.2⟩
    · have := ih (stepLine l cur).2 p (stepLine_snd_title l cur hcur) h2
      exact ⟨⟨this.1.choose, List.mem_cons_of_mem l this.1.choose_spec.1,
        this.1.choose_spec.2⟩, this.2⟩

/-- Inserting a line that trims to blank anywhere in the input does not
change the loop's output. -/
theorem parseLoop_blank_insert (w : String) (hw : trimStr w = "") :
    ∀ (pre post : List String) (cur : Option Pending),
      parseLoop (pre ++ w :: post) cur = parseLoop (pre ++ post) cur := by
  intro pre
  induction pre with
  | nil =>
    intro post cur
    have hs : stepLine w cur = ([], cur) := by simp [stepLine, hw]
    simp only [List.nil_append, parseLoop, hs]
  | cons l rest ih =>
    intro post cur
    simp only [List.cons_append, parseLoop, List.append_eq]
    rw [ih]

/-- Every channel in the id-assignment output comes from a collected entry. -/
theorem assignIds_mem :
    ∀ (ps : List Pending) (idx : Nat) (ch : Channel),
      ch ∈ assignIds idx ps → ∃ i p, p ∈ ps ∧ ch = mkChannel i p := by
  intro ps
  induction ps with
  | nil =>
    intro idx ch h
    simp [assignIds] at h
  | cons c rest ih =>
    intro idx ch h
    rw [assignIds] at h
    rcases List.mem_cons.mp h with h1 | h2
    · exact ⟨idx, c, List.mem_cons_self c rest, h1⟩
    · rcases ih (idx + 1) ch h2 with ⟨i, p, hp, he⟩
      exact ⟨i, p, List.mem_cons_of_mem c hp, he⟩

/-! ## Claim theorems -/

/-- Claim C1, counterexample: with a cached **empty** raw text and a fresh
timestamp (`0 - 0 < 5`), `fetchM3U` still invokes the retrieval capability
(one fetch call, not zero), because the JS guard `cache.m3uText && ...`
treats the empty string as falsy. -/
theorem claim_c1_counterexample :
    (⟨some "", some [], 0⟩ : Cache).m3uText = some "" ∧
    ((0 : Int) - (0 : Int) < (5 : Int)) ∧
    (fetchM3U ⟨some "", some [], 0⟩ 0 5 (FetchOutcome.response 200 "x")).2.2 = 1 := by
  decide

/-- Claim C1 (amended): for every cache state holding a previously fetched
**non-empty** raw text and every call time with `now - fetchedAt < ttl`,
`fetchM3U` returns the memoized raw text unchanged, leaves the cache intact
and performs zero fetch calls. -/
theorem claim_c1_amended (c : Cache) (now ttl : Int) (out : FetchOutcome) (t : String)
    (ht : c.m3uText = some t) (hne : t ≠ "") (hfresh : now - c.fetchedAt < ttl) :
    fetchM3U c now ttl out = (Except.ok t, c, 0) := by
  have hf : cacheFresh c now ttl = true := by
    simp [cacheFresh, ht, hne, hfresh]
  simp [fetchM3U, hf, ht]

/-- Claim C1 (amended), witness at a concrete fresh cache. -/
theorem claim_c1_amended_witness :
    fetchM3U ⟨some "a", some [], 0⟩ 1 5 FetchOutcome.transportError =
      (Except.ok "a", ⟨some "a", some [], 0⟩, 0) :=
  claim_c1_amended ⟨some "a", some [], 0⟩ 1 5 FetchOutcome.transportError "a" rfl
    (by decide) (by decide)

/-- Claim C2: whenever the retrieval capability fails (transport error or
status at least 400) and the call actually attempts a refresh (one fetch
call), `fetchM3U` returns an error and leaves the cache record untouched;
moreover every call either leaves the cache unchanged or fully replaces it
with the fetched body, its parse and the call time. -/
theorem claim_c2 (c : Cache) (now ttl : Int) (out : FetchOutcome) :
    (isFailureOut out = true → (fetchM3U c now ttl out).2.2 = 1 →
      (∃ msg, (fetchM3U c now ttl out).1 = Except.error msg) ∧
        (fetchM3U c now ttl out).2.1 = c) ∧
    ((fetchM3U c now ttl out).2.1 = c ∨
      ∃ body, (fetchM3U c now ttl out).1 = Except.ok body ∧
        (fetchM3U c now ttl out).2.1 =
          { m3uText := some body, parsed := some (parseM3U body), fetchedAt := now }) := by
  by_cases hf : cacheFresh c now ttl = true
  · constructor
    · intro _ hcount
      simp [fetchM3U, hf] at hcount
    · left
      simp [fetchM3U, hf]
  · have hf' : cacheFresh c now ttl = false := Bool.eq_false_iff.mpr hf
    cases out with
    | transportError =>
      refine ⟨fun _ _ => ⟨⟨"fetch failed", ?_⟩, ?_⟩, Or.inl ?_⟩ <;>
        simp [fetchM3U, hf']
    | response status body =>
      by_cases hs : 400 ≤ status
      · refine ⟨fun _ _ => ⟨⟨"Upstream M3U fetch failed: " ++ toString status, ?_⟩, ?_⟩,
          Or.inl ?_⟩ <;> simp [fetchM3U, hf', hs]
      · constructor
        · intro hfail _
          simp [isFailureOut, hs] at hfail
        · right
          exact ⟨body, by simp [fetchM3U, hf', hs], by simp [fetchM3U, hf', hs]⟩

/-- Claim C2, witness: a stale cache plus a status-500 response leaves the
cache record unchanged. -/
theorem claim_c2_witness :
    (fetchM3U ⟨some "old", some [], 0⟩ 10 5 (FetchOutcome.response 500 "x")).2.1 =
      ⟨some "old", some [], 0⟩ :=
  ((claim_c2 ⟨some "old", some [], 0⟩ 10 5 (FetchOutcome.response 500 "x")).1
    (by decide) (by decide)).2

/-- Claim C3: every entry returned by `parseM3U` has a non-null media URL
(`direct_source` is `some _`); a pending metadata entry with no following
URL line is never emitted. -/
theorem claim_c3 (text : String) (ch : Channel) (h : ch ∈ parseM3U text) :
    ch.direct_source.isSome = true := by
  rw [parseM3U] at h
  rcases assignIds_mem _ 0 ch h with ⟨i, p, hp, he⟩
  have hm := parseLoop_mem (splitLines text) none p (by intro q hq; simp at hq) hp
  rcases hm.1 with ⟨l, _, hurl, _⟩
  subst he
  simp [mkChannel, hurl]

/-- Claim C3, witness at a concrete playlist. -/
theorem claim_c3_witness :
    ({ id := "1", stream_id := 1, name := "A", title := "A", tvg_id := none, tvg_logo := none,
        group_title := "Other", direct_source := some "http://u" } : Channel) ∈
      parseM3U "#EXTINF:-1,A\nhttp://u" ∧
    ({ id := "1", stream_id := 1, name := "A", title := "A", tvg_id := none, tvg_logo := none,
        group_title := "Other", direct_source := some "http://u" } : Channel).direct_source.isSome
      = true :=
  ⟨by decide, claim_c3 "#EXTINF:-1,A\nhttp://u" _ (by decide)⟩

/-- Claim C4: two consecutive metadata lines drop the first entirely; the
spec's concrete input yields exactly one entry named "B" with media URL
"http://x/b". -/
theorem claim_c4 :
    parseM3U "#EXTINF:-1 tvg-name=\"A\",A\n#EXTINF:-1 tvg-name=\"B\",B\nhttp://x/b" =
      [{ id := "1", stream_id := 1, name := "B", title := "B", tvg_id := none,
         tvg_logo := none, group_title := "Other", direct_source := some "http://x/b" }] := by
  decide

/-- Claim C5: name resolution follows the precedence chain non-empty
`tvg-name` attribute, then non-empty title, then non-empty `tvg-id`
attribute, then the literal "Unnamed"; the spec's three fallback examples
hold through `parseM3U`. -/
theorem claim_c5 :
    (∀ attrs title v, attrLookup attrs "tvg-name" = some v → v ≠ "" →
      resolveName attrs title = v) ∧
    (∀ attrs title, getAttrD attrs "tvg-name" = "" → title ≠ "" →
      resolveName attrs title = title) ∧
    (∀ attrs title w, getAttrD attrs "tvg-name" = "" → title = "" →
      attrLookup attrs "tvg-id" = some w → w ≠ "" → resolveName attrs title = w) ∧
    (∀ attrs title, getAttrD attrs "tvg-name" = "" → title = "" →
      getAttrD attrs "tvg-id" = "" → resolveName attrs title = "Unnamed") ∧
    (parseM3U "#EXTINF:-1,Show X\nhttp://u").map (fun c => c.name) = ["Show X"] ∧
    (parseM3U "#EXTINF:-1 tvg-id=\"id1\",\nhttp://u").map (fun c => c.name) = ["id1"] ∧
    (parseM3U "#EXTINF:-1\nhttp://u").map (fun c => c.name) = ["Unnamed"] := by
  refine ⟨?_, ?_, ?_, ?_, by decide, by decide, by decide⟩
  · intro attrs title v hv hne
    have h : getAttrD attrs "tvg-name" = v := by simp [getAttrD, hv]
    simp only [resolveName]
    rw [h]
    simp [jsOr, hne]
  · intro attrs title h0 hne
    simp only [resolveName]
    rw [h0]
    simp [jsOr, hne]
  · intro attrs title w h0 ht hv hne
    have h2 : getAttrD attrs "tvg-id" = w := by simp [getAttrD, hv]
    simp only [resolveName]
    rw [h0, ht, h2]
    simp [jsOr, hne]
  · intro attrs title h0 ht h1
    simp only [resolveName]
    rw [h0, ht, h1]
    simp [jsOr]

/-- Claim C5, witness: a non-empty `tvg-name` wins over the title. -/
theorem claim_c5_witness : resolveName [("tvg-name", "X")] "T" = "X" :=
  claim_c5.1 [("tvg-name", "X")] "T" "X" (by decide) (by decide)

/-- Claim C6: with an empty allow list every credential pair is authorized;
with a non-empty one, a pair is authorized iff the list maps the username to
exactly the supplied password; the three concrete examples of the spec hold. -/
theorem claim_c6 :
    (∀ u p, okUserPass [] u p = true) ∧
    (∀ allow u (p : String), allow ≠ [] →
      (okUserPass allow u (some p) = true ↔ List.lookup u allow = some p)) ∧
    okUserPass [("alice", "secret")] "alice" (some "secret") = true ∧
    okUserPass [("alice", "secret")] "alice" (some "wrong") = false ∧
    okUserPass [("alice", "secret")] "bob" (some "") = false := by
  refine ⟨fun u p => rfl, ?_, by decide, by decide, by decide⟩
  intro allow u p hne
  have he : allow.isEmpty = false := by
    cases allow with
    | nil => exact absurd rfl hne
    | cons a as => rfl
  rw [okUserPass, he]
  cases hl : List.lookup u allow with
  | none => simp [hl]
  | some ap => simp [hl, beq_iff_eq]

/-- Claim C6, witness: the non-empty-list criterion applied at a concrete
allow list. -/
theorem claim_c6_witness : okUserPass [("a", "b")] "a" (some "b") = true :=
  (claim_c6.2.1 [("a", "b")] "a" "b" (by decide)).mpr (by decide)

/-- Claim C7: the emitted category is the `group-title` attribute when it is
present with a non-empty value, and "Other" when it is absent or empty; a
metadata line lacking `group-title` yields category "Other" through
`parseM3U`. -/
theorem claim_c7 :
    (∀ attrs v, attrLookup attrs "group-title" = some v → v ≠ "" →
      resolveCategory attrs = v) ∧
    (∀ attrs, (attrLookup attrs "group-title" = none ∨
        attrLookup attrs "group-title" = some "") →
      resolveCategory attrs = "Other") ∧
    (parseM3U "#EXTINF:-1 tvg-name=\"A\",A\nhttp://u").map (fun c => c.group_title) =
      ["Other"] := by
  refine ⟨?_, ?_, by decide⟩
  · intro attrs v hv hne
    simp [resolveCategory, getAttrD, hv, jsOr, hne]
  · intro attrs h
    rcases h with h | h <;> simp [resolveCategory, getAttrD, h, jsOr]

/-- Claim C7, witness: no attributes at all gives category "Other". -/
theorem claim_c7_witness : resolveCategory [] = "Other" :=
  claim_c7.2.1 [] (Or.inl (by decide))

/-- Claim C8: the `/get.php` body always begins with the "#EXTM3U" header;
when the personalized text does not already start with it, the header line
is prefixed. -/
theorem claim_c8 (m3u u p : String) :
    strStartsWith (getPhpBody m3u u p) "#EXTM3U" = true ∧
    (strStartsWith (personalize m3u u p) "#EXTM3U" = false →
      getPhpBody m3u u p = "#EXTM3U\n" ++ personalize m3u u p) := by
  constructor
  · by_cases h : strStartsWith (personalize m3u u p) "#EXTM3U" = true
    · simp [getPhpBody, h]
    · have hb : strStartsWith (personalize m3u u p) "#EXTM3U" = false :=
        Bool.eq_false_iff.mpr h
      simp [getPhpBody, hb]
      exact strStartsWith_header _
  · intro h
    simp [getPhpBody, h]

/-- Claim C8, witness: a header-less upstream text gets the header prefixed. -/
theorem claim_c8_witness :
    getPhpBody "hello" "u" "p" = "#EXTM3U\n" ++ personalize "hello" "u" "p" :=
  (claim_c8 "hello" "u" "p").2 (by decide)

/-- Claim C9: a missing (undefined) supplied password behaves exactly like
the empty-string password, so a request omitting the password is authorized
iff the allow list is empty or maps the username to the empty password; in
particular `parseAllowUsers "alice:"` stores an empty password for "alice"
and authorizes a password-less request. -/
theorem claim_c9 :
    (∀ allow u, okUserPass allow u none = okUserPass allow u (some "")) ∧
    (∀ allow u, okUserPass allow u none = true ↔
      (allow = [] ∨ List.lookup u allow = some "")) ∧
    okUserPass (parseAllowUsers "alice:") "alice" none = true := by
  refine ⟨fun allow u => rfl, ?_, by decide⟩
  intro allow u
  cases allow with
  | nil => simp [okUserPass]
  | cons a as =>
    have he : (a :: as).isEmpty = false := rfl
    rw [okUserPass, he]
    cases hl : List.lookup u (a :: as) with
    | none => simp [hl]
    | some ap => simp [hl, beq_iff_eq]

/-- Claim C10: whitespace-only lines are discarded (inserting one anywhere
leaves the parse unchanged); every emitted entry's media URL is the trim of
some source line (non-blank after trimming) and its title carries no
surrounding whitespace. -/
theorem claim_c10 :
    (∀ (pre post : List String) (w : String) (cur : Option Pending),
      trimStr w = "" → parseLoop (pre ++ w :: post) cur = parseLoop (pre ++ post) cur) ∧
    (∀ (text : String) (ch : Channel), ch ∈ parseM3U text →
      (∃ l, l ∈ splitLines text ∧ ch.direct_source = some (trimStr l) ∧ trimStr l ≠ "") ∧
        trimStr ch.title = ch.title) := by
  constructor
  · intro pre post w cur hw
    exact parseLoop_blank_insert w hw pre post cur
  · intro text ch h
    rw [parseM3U] at h
    rcases assignIds_mem _ 0 ch h with ⟨i, p, hp, he⟩
    have hm := parseLoop_mem (splitLines text) none p (by intro q hq; simp at hq) hp
    subst he
    exact ⟨hm.1, hm.2⟩

/-- Claim C10, witness: inserting a whitespace-only line between a metadata
line and its URL line does not change the parse. -/
theorem claim_c10_witness :
    parseLoop (["#EXTINF:-1,A"] ++ "  " :: ["http://u"]) none =
      parseLoop (["#EXTINF:-1,A"] ++ ["http://u"]) none :=
  claim_c10.1 ["#EXTINF:-1,A"] ["http://u"] "  " none (by decide)
